import Mathlib

/-!
Verification of the core of the `institutionanalyser` repository against its
specification.

The Go source is shallowly embedded: `float64` values are modelled as exact
rationals (`ℚ`), Go slices as `List`, fallible operations as `Except`, and the
two external collaborators (market data fetch, trade-analysis HTTP lookup) as
explicit parameters describing their observable outcome.  Each definition below
is a direct translation of the function of the same name in
`deepsearch/analyser.go` or the earnings big-money handler.
-/

namespace InstitutionAnalyser

/-- A raw Polygon aggregate bar (`polygonmodels.Agg`) as consumed by
`enhanceData`: timestamp in milliseconds, OHLC prices, volume, transaction
count and per-bar vwap.  `float64` fields are modelled as `ℚ`. -/
structure RawBar where
  Timestamp : Nat
  Open : ℚ
  Close : ℚ
  High : ℚ
  Low : ℚ
  Volume : ℚ
  Transactions : ℚ
  VWAP : ℚ
deriving DecidableEq

instance : Inhabited RawBar := ⟨⟨0, 0, 0, 0, 0, 0, 0, 0⟩⟩

/-- `EnhancedBar` from `deepsearch/analyser.go`. -/
structure EnhancedBar where
  Timestamp : Nat
  Open : ℚ
  Close : ℚ
  High : ℚ
  Low : ℚ
  Volume : ℚ
  Transactions : ℚ
  CumulativeVWAP : ℚ
  VolumeZScore : ℚ
  IsDoji : Bool
  BearishEngulfing : Bool
  BullishEngulfing : Bool
  InstitutionalFlow : Bool
  ATR : ℚ
  VWAP : ℚ
deriving DecidableEq

instance : Inhabited EnhancedBar :=
  ⟨⟨0, 0, 0, 0, 0, 0, 0, 0, 0, false, false, false, false, 0, 0⟩⟩

/-- `sort.Float64s` sorts the slice ascending.  Insertion sort produces the
same list (the ascending reordering of a list of rationals is unique), and it
reduces well in the kernel. -/
def sortAsc (data : List ℚ) : List ℚ := data.insertionSort (· ≤ ·)

/-- Go `int(x)` conversion from `float64`: truncation toward zero. -/
def truncToInt (x : ℚ) : Int := if 0 ≤ x then ⌊x⌋ else -⌊-x⌋

/-- `quantile` from `deepsearch/analyser.go`: sort ascending and return the
element at index `int(q*(len-1))` (nearest rank, no interpolation).  The Go
code sorts the caller's slice in place; since the later uses of that slice are
order insensitive (it is re-sorted on every call), sorting a copy is
observationally equivalent. -/
def quantile (data : List ℚ) (q : ℚ) : ℚ :=
  if data.length = 0 then 0
  else
    let sorted := sortAsc data
    let index : Int := truncToInt (q * ((data.length : ℚ) - 1))
    sorted.getD index.toNat 0

/-- `calculateATR` from `deepsearch/analyser.go`: zero until `period` ranges
exist, then the arithmetic mean of the `period` most recent ranges. -/
def calculateATR (ranges : List ℚ) (period : Nat) : ℚ :=
  if ranges.length < period then 0
  else ((ranges.drop (ranges.length - period)).sum) / (period : ℚ)

/-- `math.Sqrt` has no exact rational counterpart; it is modelled by
`Rat.sqrt`, which is zero exactly on zero (for the nonnegative variances it is
applied to) — the only property of the square root that the guards of
`volumeZScore` rely on.  No claim below depends on the numeric value of a
nonzero z-score. -/
def sqrtModel (x : ℚ) : ℚ := Rat.sqrt x

/-- `volumeZScore` from `deepsearch/analyser.go`: z-score of the latest volume
against the population mean/stddev of the trailing `lookback` window, with
guards returning 0 when the history is shorter than `lookback` or the stddev
is zero. -/
def volumeZScore (volumes : List ℚ) (lookback : Nat) : ℚ :=
  if volumes.length < lookback ∨ lookback = 0 then 0
  else
    let window := volumes.drop (volumes.length - lookback)
    let mean := window.sum / (window.length : ℚ)
    let stdDev := sqrtModel ((window.map (fun v => (v - mean) ^ 2)).sum / (window.length : ℚ))
    if stdDev = 0 then 0
    else (volumes.getLast?.getD 0 - mean) / stdDev

/-- The mutable locals of the `enhanceData` loop. -/
structure EnhanceState where
  cumulativeVolume : ℚ
  cumulativeVWAP : ℚ
  volumes : List ℚ
  ranges : List ℚ
  volumePerTrade : List ℚ
  enhanced : List EnhancedBar
deriving DecidableEq

def initEnhanceState : EnhanceState := ⟨0, 0, [], [], [], []⟩

/-- One iteration of the `enhanceData` loop body. -/
def enhanceStep (st : EnhanceState) (agg : RawBar) : EnhanceState :=
  let cumulativeVolume := st.cumulativeVolume + agg.Volume
  let cumulativeVWAP := st.cumulativeVWAP + agg.Volume * agg.VWAP
  let cumVWAPField := if cumulativeVolume > 0 then cumulativeVWAP / cumulativeVolume else 0
  let barRange := agg.High - agg.Low
  let ranges := st.ranges ++ [barRange]
  let atr := calculateATR ranges 14
  let volumes := st.volumes ++ [agg.Volume]
  let zscore := volumeZScore volumes 14
  let body := |agg.Close - agg.Open|
  let isDoji := decide (body / barRange < 1 / 10) && decide (barRange > 0)
  let bearish :=
    match st.enhanced.getLast? with
    | some prevBar =>
        decide (agg.Close < agg.Open) && decide (agg.Open > prevBar.Close) &&
          decide (agg.Close < prevBar.Open)
    | none => false
  let bullish :=
    match st.enhanced.getLast? with
    | some prevBar =>
        decide (agg.Close > agg.Open) && decide (agg.Open < prevBar.Close) &&
          decide (agg.Close > prevBar.Open)
    | none => false
  let vptPair :=
    if agg.Transactions > 0 then
      let vpt := agg.Volume / agg.Transactions
      let hist := st.volumePerTrade ++ [vpt]
      (hist, decide (vpt > quantile hist (9 / 10)))
    else (st.volumePerTrade, false)
  let bar : EnhancedBar :=
    { Timestamp := agg.Timestamp
      Open := agg.Open
      Close := agg.Close
      High := agg.High
      Low := agg.Low
      Volume := agg.Volume
      Transactions := agg.Transactions
      CumulativeVWAP := cumVWAPField
      VolumeZScore := zscore
      IsDoji := isDoji
      BearishEngulfing := bearish
      BullishEngulfing := bullish
      InstitutionalFlow := vptPair.2
      ATR := atr
      VWAP := agg.VWAP }
  ⟨cumulativeVolume, cumulativeVWAP, volumes, ranges, vptPair.1, st.enhanced ++ [bar]⟩

/-- `enhanceData` from `deepsearch/analyser.go`: the single streaming pass over
the raw bars. -/
def enhanceData (bars : List RawBar) : List EnhancedBar :=
  (bars.foldl enhanceStep initEnhanceState).enhanced

/-! Closed forms for the rolling state of `enhanceData`, used to state the
claims about individual enriched bars. -/

/-- The per-bar ranges (high − low) of a bar sequence, in order. -/
def rangesOf (bars : List RawBar) : List ℚ := bars.map (fun b => b.High - b.Low)

/-- The volumes of a bar sequence, in order. -/
def volumesOf (bars : List RawBar) : List ℚ := bars.map (fun b => b.Volume)

/-- The running volume-per-transaction history: one entry per bar with a
positive transaction count, in bar order. -/
def vptHistory (bars : List RawBar) : List ℚ :=
  (bars.filter (fun b => decide (b.Transactions > 0))).map
    (fun b => b.Volume / b.Transactions)

/-- Closed form of the enriched bar the streaming pass produces at index `i`:
every derived field is a function of the prefix `bars.take (i+1)` (and, for
the engulfing flags, of the immediately preceding raw bar). -/
def enrichedAt (bars : List RawBar) (i : Nat) : EnhancedBar :=
  let b := bars.getD i default
  let pre := bars.take (i + 1)
  let volSum := (volumesOf pre).sum
  let notionalSum := (pre.map (fun x => x.Volume * x.VWAP)).sum
  let barRange := b.High - b.Low
  let body := |b.Close - b.Open|
  let p := bars.getD (i - 1) default
  { Timestamp := b.Timestamp
    Open := b.Open
    Close := b.Close
    High := b.High
    Low := b.Low
    Volume := b.Volume
    Transactions := b.Transactions
    CumulativeVWAP := if volSum > 0 then notionalSum / volSum else 0
    VolumeZScore := volumeZScore (volumesOf pre) 14
    IsDoji := decide (body / barRange < 1 / 10) && decide (barRange > 0)
    BearishEngulfing :=
      if i = 0 then false
      else
        decide (b.Close < b.Open) && decide (b.Open > p.Close) && decide (b.Close < p.Open)
    BullishEngulfing :=
      if i = 0 then false
      else
        decide (b.Close > b.Open) && decide (b.Open < p.Close) && decide (b.Close > p.Open)
    InstitutionalFlow :=
      if b.Transactions > 0 then
        decide (b.Volume / b.Transactions > quantile (vptHistory pre) (9 / 10))
      else false
    ATR := calculateATR (rangesOf pre) 14
    VWAP := b.VWAP }

/-! ## SignalGenerator (`generateSignals`) -/

/-- Two-digit zero padding, as produced by Go time formatting. -/
def pad2 (n : Nat) : String := if n < 10 then "0" ++ toString n else toString n

/-- Model of `bar.Timestamp.Format("15:04")`: hour and minute of day from a
millisecond timestamp (the Go code formats in the bar's location; the wall
clock arithmetic is modelled in UTC, which no claim depends on). -/
def fmtTimeHM (millis : Nat) : String :=
  pad2 ((millis / 3600000) % 24) ++ ":" ++ pad2 ((millis / 60000) % 60)

/-- Decimal rendering model of `fmt.Sprintf("%.2f", x)`: the value rounded to
two fractional digits.  No claim depends on the exact rendering. -/
def fmtF2 (x : ℚ) : String :=
  let n : Int := ⌊x * 100 + 1 / 2⌋
  let m := n.natAbs
  (if n < 0 then "-" else "") ++ toString (m / 100) ++ "." ++ pad2 (m % 100)

/-- Decimal rendering model of `fmt.Sprintf("%.0f", x)`. -/
def fmtF0 (x : ℚ) : String :=
  let n : Int := ⌊x + 1 / 2⌋
  (if n < 0 then "-" else "") ++ toString n.natAbs

def dojiMsg (bar : EnhancedBar) : String :=
  fmtTimeHM bar.Timestamp ++ " STRADDLE: Doji Pattern - Indecision Closing price (" ++
    fmtF2 bar.Close ++ ")"

def bearishMsg (bar : EnhancedBar) : String :=
  fmtTimeHM bar.Timestamp ++ " PUT: Bearish Engulfing - Reversal Likely Closing price (" ++
    fmtF2 bar.Close ++ ")"

def bullishMsg (bar : EnhancedBar) : String :=
  fmtTimeHM bar.Timestamp ++ " CALL: Bullish Engulfing - Reversal Likely Closing price (" ++
    fmtF2 bar.Close ++ ")"

def volSellMsg (bar : EnhancedBar) : String :=
  fmtTimeHM bar.Timestamp ++ " PUT: Volume Spike + Price Drop (" ++ fmtF2 bar.Volume ++
    ") - Institutional Selling Likely Closing price (" ++ fmtF2 bar.Close ++ ")"

def volBuyMsg (bar : EnhancedBar) : String :=
  fmtTimeHM bar.Timestamp ++ " CALL: Volume Spike + Institutional Flow (" ++ fmtF2 bar.Volume ++
    ") - Institutional Buying Likely Closing price (" ++ fmtF2 bar.Close ++ ")"

def volExpMsg (bar : EnhancedBar) : String :=
  fmtTimeHM bar.Timestamp ++ " STRADDLE: Volatility Expansion (ATR " ++ fmtF2 bar.ATR ++
    ") - Institutional Activity Likely Closing price (" ++ fmtF2 bar.Close ++ ")"

def upMsg (bar : EnhancedBar) : String :=
  fmtTimeHM bar.Timestamp ++ " UP: Institutional Buying Detected (Volume " ++ fmtF0 bar.Volume ++
    ") - Closing price (" ++ fmtF2 bar.Close ++ ")"

def downMsg (bar : EnhancedBar) : String :=
  fmtTimeHM bar.Timestamp ++ " DOWN: Institutional Selling Detected (Volume " ++
    fmtF0 bar.Volume ++ ") - Closing price (" ++ fmtF2 bar.Close ++ ")"

/-- Condition of the directional BUY rule (rule 7). -/
def rule7Cond (bar : EnhancedBar) : Bool :=
  bar.InstitutionalFlow && decide (bar.Close > bar.Open) && decide (bar.VolumeZScore > 1)

/-- Condition of the directional SELL rule (rule 8). -/
def rule8Cond (bar : EnhancedBar) : Bool :=
  bar.InstitutionalFlow && decide (bar.Close < bar.Open) && decide (bar.VolumeZScore > 1)

/-- The messages the loop body of `generateSignals` appends for bar `i`, in
the fixed source order of the eight rules; rules 7 and 8 form an
`if`/`else if`. -/
def barSignals (bars : List EnhancedBar) (i : Nat) : List String :=
  let bar := bars.getD i default
  (if bar.IsDoji then [dojiMsg bar] else []) ++
  (if bar.BearishEngulfing then [bearishMsg bar] else []) ++
  (if bar.BullishEngulfing then [bullishMsg bar] else []) ++
  (if decide (bar.VolumeZScore > 2) && decide (bar.Close < bar.Open) then [volSellMsg bar]
   else []) ++
  (if decide (bar.VolumeZScore > 2) && decide (bar.Close > bar.Open) then [volBuyMsg bar]
   else []) ++
  (if decide (0 < i) && decide (bar.ATR > (bars.getD (i - 1) default).ATR * (3 / 2)) then
     [volExpMsg bar]
   else []) ++
  (if rule7Cond bar then [upMsg bar] else if rule8Cond bar then [downMsg bar] else [])

/-- The loop body of `generateSignals`: one `for i, bar := range bars`
iteration, threading the `signals` slice. -/
def generateSignalsBody (bars : List EnhancedBar) (signals : List String) (i : Nat) :
    List String :=
  if i < 3 then signals
  else
    let bar := bars.getD i default
    let s1 := if bar.IsDoji then signals ++ [dojiMsg bar] else signals
    let s2 := if bar.BearishEngulfing then s1 ++ [bearishMsg bar] else s1
    let s3 := if bar.BullishEngulfing then s2 ++ [bullishMsg bar] else s2
    let s4 :=
      if decide (bar.VolumeZScore > 2) && decide (bar.Close < bar.Open) then
        s3 ++ [volSellMsg bar]
      else s3
    let s5 :=
      if decide (bar.VolumeZScore > 2) && decide (bar.Close > bar.Open) then
        s4 ++ [volBuyMsg bar]
      else s4
    let s6 :=
      if decide (0 < i) && decide (bar.ATR > (bars.getD (i - 1) default).ATR * (3 / 2)) then
        s5 ++ [volExpMsg bar]
      else s5
    if rule7Cond bar then s6 ++ [upMsg bar]
    else if rule8Cond bar then s6 ++ [downMsg bar]
    else s6

/-- `generateSignals` from `deepsearch/analyser.go`: iterate over the bars
with their indices, skip indices below 3, and append the matching rule
messages in source order. -/
def generateSignals (bars : List EnhancedBar) : List String :=
  (List.range bars.length).foldl (generateSignalsBody bars) []

/-- Declarative restatement of the SignalGenerator contract (§4.2 of the
spec): indices 0–2 emit nothing; each later bar contributes its matching rule
messages, in rule order, in bar order. -/
def generateSignalsSpec (bars : List EnhancedBar) : List String :=
  (List.range bars.length).flatMap (fun i => if i < 3 then [] else barSignals bars i)

/-! ## DecisionAggregator (`getFinalDecisionFromSignals`) -/

/-- `listStartsWith s p` holds when `p` is an initial segment of `s`. -/
def listStartsWith : List Char → List Char → Bool
  | _, [] => true
  | [], _ :: _ => false
  | c :: s, p :: ps => c == p && listStartsWith s ps

/-- Substring search on character lists (semantics of Go `strings.Contains`). -/
def listContainsSub : List Char → List Char → Bool
  | [], p => p.isEmpty
  | c :: s, p => listStartsWith (c :: s) p || listContainsSub s p

/-- Go `strings.Contains`. -/
def strContains (s sub : String) : Bool := listContainsSub s.data sub.data

/-- ASCII uppercase of one character (model of Go `strings.ToUpper`; the
signal vocabulary is ASCII). -/
def upperChar (c : Char) : Char :=
  if 97 ≤ c.toNat ∧ c.toNat ≤ 122 then Char.ofNat (c.toNat - 32) else c

/-- Model of Go `strings.ToUpper`. -/
def upperStr (s : String) : String := ⟨s.data.map upperChar⟩

/-- The bucket keys of the `counts` map in `getFinalDecisionFromSignals`. -/
def decisionKeys : List String := ["BUY", "SELL", "STRADDLE", "HOLD"]

/-- The `switch` classifying one signal message into its bucket
(case-insensitive keyword search, first match wins). -/
def classifySignal (signal : String) : String :=
  let s := upperStr signal
  if strContains s "CALL" || strContains s "UP" || strContains s "BUY" then "BUY"
  else if strContains s "PUT" || strContains s "DOWN" || strContains s "SELL" then "SELL"
  else if strContains s "STRADDLE" then "STRADDLE"
  else "HOLD"

/-- The value of `counts[k]` after the counting loop: every signal lands in
exactly one bucket, so the map entry is the number of signals classified `k`. -/
def signalCount (signals : List String) (k : String) : Nat :=
  (signals.map classifySignal).count k

/-- `getFinalDecisionFromSignals` from `deepsearch/analyser.go`.  The Go code
scans the bucket map in Go's unspecified map iteration order; the scan order
is therefore a parameter, and the theorems below quantify over all
permutations of the key set. -/
def getFinalDecisionFromSignals (iterOrder : List String) (signals : List String) : String :=
  (iterOrder.foldl
      (fun acc k => if signalCount signals k > acc.2 then (k, signalCount signals k) else acc)
      ("HOLD", signalCount signals "HOLD")).1

/-! ## AnalysisRunner (`AnalyseMain` / `storeSignalsInDatabase`) -/

/-- How one `AnalyseMain` run ends: `fatalExit` models `log.Fatal` (the
process terminates; no error value reaches the caller), `failure e` a
returned Go error, `success` a nil return. -/
inductive RunOutcome where
  | fatalExit
  | failure (msg : String)
  | success
deriving DecidableEq

/-- Result of a modelled run, recording whether the persistence collaborator
(`storeSignalsInDatabase`, hence `db.Create`) was invoked. -/
structure RunResult where
  outcome : RunOutcome
  storeCalled : Bool
deriving DecidableEq

/-- `storeSignalsInDatabase` from `deepsearch/analyser.go`, with the database
write outcome (`db.Create`) abstracted as `dbResult`. -/
def storeSignalsInDatabase (bars : List EnhancedBar) (signals : List String)
    (dbResult : Except String Unit) : Except String Unit :=
  if bars.length = 0 ∨ signals.length = 0 then .error "no bars or signals"
  else dbResult

/-- `AnalyseMain` from `deepsearch/analyser.go`.  `fetch` is the outcome of
`GetPolygonAggregate`; on a fetch error the Go code calls `log.Fatal(err)`,
modelled as `fatalExit`. -/
def analyseMain (fetch : Except String (List RawBar))
    (dbResult : Except String Unit) : RunResult :=
  match fetch with
  | .error _ => ⟨.fatalExit, false⟩
  | .ok bars =>
    let enhancedBars := enhanceData bars
    if enhancedBars.length = 0 then ⟨.failure "no enhanced bars", false⟩
    else
      let signals := generateSignals enhancedBars
      if 0 < signals.length ∧ 0 < enhancedBars.length then
        match storeSignalsInDatabase enhancedBars signals dbResult with
        | .error e => ⟨.failure e, true⟩
        | .ok _ => ⟨.success, true⟩
      else ⟨.failure "no signals or enhanced bars", false⟩

/-! ## BoundedCorrelator (`GetEarningsWithBigMoney` / `analyzeTickerBigMoney`) -/

/-- `EarningsResult` from the earnings handler. -/
structure EarningsResult where
  Ticker : String
  Date : String
  ActualEPS : Option ℚ
  ActualRevenue : Option ℚ
  EstimatedEPS : Option ℚ
  EstimatedRevenue : Option ℚ
  Importance : Int
  Time : String
  Updated : String
deriving DecidableEq

instance : Inhabited EarningsResult := ⟨⟨"", "", none, none, none, none, 0, "", ""⟩⟩

/-- `TradeAnalysisResult` (decoded body of the tradeanalysis API). -/
structure TradeAnalysisResult where
  TotalTrades : Int
  AvgTradeSize : ℚ
  LargeTradesCount : Int
  NetBigMoneyFlow : ℚ
  BuyerInitiatedVolume : ℚ
  SellerInitiatedVolume : ℚ
  Direction : String
deriving DecidableEq

/-- `TradeAnalysisResponse`.  The `AnalysisDate` time value is modelled by its
`"2006-01-02"` rendering, which is all the handler uses of it. -/
structure TradeAnalysisResponse where
  Ticker : String
  AnalysisDate : String
  LargeTradeThreshold : ℚ
  Result : TradeAnalysisResult
deriving DecidableEq

/-- `EarningsBigMoneyResult`: one per input earnings event. -/
structure EarningsBigMoneyResult where
  Ticker : String
  Date : String
  Time : String
  EstimatedEPS : Option ℚ
  ActualEPS : Option ℚ
  Importance : Int
  BigMoneyDirection : String
  NetBigMoneyFlow : Option ℚ
  LargeTradesCount : Option Int
  BuyerInitiatedVol : Option ℚ
  SellerInitiatedVol : Option ℚ
  AnalysisDate : Option String
  Error : Option String
deriving DecidableEq

instance {ε α : Type} [DecidableEq ε] [DecidableEq α] : DecidableEq (Except ε α) := fun x y =>
  match x, y with
  | .error a, .error b =>
      if h : a = b then isTrue (by rw [h]) else isFalse (fun hc => h (Except.error.inj hc))
  | .error _, .ok _ => isFalse (fun hc => Except.noConfusion hc)
  | .ok _, .error _ => isFalse (fun hc => Except.noConfusion hc)
  | .ok a, .ok b =>
      if h : a = b then isTrue (by rw [h]) else isFalse (fun hc => h (Except.ok.inj hc))

/-- The observable outcome of one `http.Get` to the tradeanalysis API:
a transport error, or a response with a status code and the outcome of
reading its body. -/
inductive LookupOutcome where
  | transportError (msg : String)
  | response (statusCode : Nat) (bodyRead : Except String String)
deriving DecidableEq

instance : Inhabited LookupOutcome := ⟨.transportError ""⟩

/-- `analyzeTickerBigMoney` from the earnings big-money handler.  `decoder`
abstracts `json.Unmarshal` into `TradeAnalysisResponse`; `outcome` is what the
network returned for this ticker.  (The request URL — analysis date and
threshold — only selects the response and is absorbed into `outcome`.) -/
def analyzeTickerBigMoney (decoder : String → Except String TradeAnalysisResponse)
    (earning : EarningsResult) (outcome : LookupOutcome) : EarningsBigMoneyResult :=
  let base : EarningsBigMoneyResult :=
    { Ticker := earning.Ticker
      Date := earning.Date
      Time := earning.Time
      EstimatedEPS := earning.EstimatedEPS
      ActualEPS := earning.ActualEPS
      Importance := earning.Importance
      BigMoneyDirection := ""
      NetBigMoneyFlow := none
      LargeTradesCount := none
      BuyerInitiatedVol := none
      SellerInitiatedVol := none
      AnalysisDate := none
      Error := none }
  match outcome with
  | .transportError msg =>
      { base with
        BigMoneyDirection := "ERROR"
        Error := some ("Failed to call tradeanalysis API: " ++ msg) }
  | .response statusCode bodyRead =>
      if statusCode ≠ 200 then
        { base with
          BigMoneyDirection := "ERROR"
          Error := some ("Tradeanalysis API returned status " ++ toString statusCode ++ ": " ++
            (bodyRead.toOption.getD "")) }
      else
        match bodyRead with
        | .error msg =>
            { base with
              BigMoneyDirection := "ERROR"
              Error := some ("Failed to read tradeanalysis response: " ++ msg) }
        | .ok body =>
            match decoder body with
            | .error msg =>
                { base with
                  BigMoneyDirection := "ERROR"
                  Error := some ("Failed to parse tradeanalysis response: " ++ msg) }
            | .ok ta =>
                let populated :=
                  { base with
                    BigMoneyDirection := ta.Result.Direction
                    NetBigMoneyFlow := some ta.Result.NetBigMoneyFlow
                    LargeTradesCount := some ta.Result.LargeTradesCount
                    BuyerInitiatedVol := some ta.Result.BuyerInitiatedVolume
                    SellerInitiatedVol := some ta.Result.SellerInitiatedVolume
                    AnalysisDate := some ta.AnalysisDate }
                if ta.Result.TotalTrades = 0 then
                  { populated with BigMoneyDirection := "NO_DATA" }
                else populated

/-- `EarningsBigMoneySummary`. -/
structure EarningsBigMoneySummary where
  BullishCount : Nat
  BearishCount : Nat
  NeutralCount : Nat
  ErrorCount : Nat
  TotalAnalyzed : Nat
deriving DecidableEq

/-- The summary loop after `wg.Wait()`. -/
def computeSummary (results : List EarningsBigMoneyResult) : EarningsBigMoneySummary :=
  results.foldl
    (fun s r =>
      if r.BigMoneyDirection = "BUYING_PRESSURE" then { s with BullishCount := s.BullishCount + 1 }
      else if r.BigMoneyDirection = "SELLING_PRESSURE" then
        { s with BearishCount := s.BearishCount + 1 }
      else if r.BigMoneyDirection = "NEUTRAL" then { s with NeutralCount := s.NeutralCount + 1 }
      else { s with ErrorCount := s.ErrorCount + 1 })
    ⟨0, 0, 0, 0, results.length⟩

/-- Where one fan-out goroutine stands: before acquiring the semaphore,
holding a slot before its append, holding a slot after its append, or done
(slot released, `wg.Done` called). -/
inductive TaskPhase where
  | notStarted
  | running
  | appended
  | done
deriving DecidableEq

/-- A goroutine is "in flight" between its semaphore acquire and release. -/
def TaskPhase.inFlight : TaskPhase → Bool
  | .running => true
  | .appended => true
  | _ => false

/-- A goroutine still holds the wait-group counter until it is done. -/
def TaskPhase.pending : TaskPhase → Bool
  | .done => false
  | _ => true

/-- The shared state of the fan-out in `GetEarningsWithBigMoney`: per-task
phase, the mutex-guarded `results` slice, the wait-group counter, and whether
the main goroutine has passed `wg.Wait()` and computed the summary. -/
structure CorrState where
  phases : List TaskPhase
  results : List EarningsBigMoneyResult
  wgCount : Nat
  summaryDone : Bool
  summary : EarningsBigMoneySummary
deriving DecidableEq

/-- Number of lookups in flight (semaphore slots held). -/
def holders (s : CorrState) : Nat := s.phases.countP TaskPhase.inFlight

/-- One scheduler decision in an execution of the fan-out. -/
inductive CorrAction where
  | acquire (i : Nat)
  | append (i : Nat)
  | release (i : Nat)
  | summarize
deriving DecidableEq

/-- Small-step semantics of the fan-out.  `acquire` is the semaphore send
(enabled while fewer than 5 slots are held), `append` the mutex-guarded
`results = append(results, result)`, `release` the deferred semaphore receive
plus `wg.Done()`, and `summarize` the main goroutine passing `wg.Wait()` and
computing the summary.  `none` means the action is not enabled (that schedule
does not occur). -/
def corrStep (decoder : String → Except String TradeAnalysisResponse)
    (events : List (EarningsResult × LookupOutcome)) (s : CorrState) :
    CorrAction → Option CorrState
  | .acquire i =>
      if i < s.phases.length ∧ s.phases.getD i .done = .notStarted ∧ holders s < 5 then
        some { s with phases := s.phases.set i .running }
      else none
  | .append i =>
      if s.phases.getD i .done = .running then
        some { s with
          phases := s.phases.set i .appended
          results := s.results ++
            [analyzeTickerBigMoney decoder (events.getD i default).1 (events.getD i default).2] }
      else none
  | .release i =>
      if s.phases.getD i .done = .appended then
        some { s with phases := s.phases.set i .done, wgCount := s.wgCount - 1 }
      else none
  | .summarize =>
      if s.wgCount = 0 ∧ s.summaryDone = false then
        some { s with summaryDone := true, summary := computeSummary s.results }
      else none

/-- The state after the spawning loop: every task spawned and counted in the
wait group, nothing yet acquired, appended, or summarized. -/
def initCorrState (events : List (EarningsResult × LookupOutcome)) : CorrState :=
  { phases := events.map (fun _ => .notStarted)
    results := []
    wgCount := events.length
    summaryDone := false
    summary := ⟨0, 0, 0, 0, 0⟩ }

/-- Run a schedule: `none` when some action in it is not enabled. -/
def corrRun (decoder : String → Except String TradeAnalysisResponse)
    (events : List (EarningsResult × LookupOutcome)) :
    CorrState → List CorrAction → Option CorrState
  | s, [] => some s
  | s, a :: rest =>
      match corrStep decoder events s a with
      | some s2 => corrRun decoder events s2 rest
      | none => none

/-! ## Theorems: DecisionAggregator -/

/-- The max-scan of the bucket map never moves off the initial accumulator
when no bucket strictly exceeds it. -/
lemma foldl_decision_no_update (cnt : String → Nat) :
    ∀ (order : List String) (acc : String × Nat),
      (∀ k ∈ order, cnt k ≤ acc.2) →
      order.foldl (fun acc k => if cnt k > acc.2 then (k, cnt k) else acc) acc = acc := by
  intro order
  induction order with
  | nil => intro acc _; rfl
  | cons a rest ih =>
      intro acc h
      have ha : cnt a ≤ acc.2 := h a (List.mem_cons_self a rest)
      simp only [List.foldl_cons]
      rw [if_neg (by omega)]
      exact ih acc (fun k hk => h k (List.mem_cons_of_mem a hk))

/-- The max-scan returns the unique strict maximum, whatever the iteration
order. -/
lemma foldl_decision_max (cnt : String → Nat) (kMax : String) :
    ∀ (order : List String) (acc : String × Nat),
      kMax ∈ order → acc.2 < cnt kMax →
      (∀ k ∈ order, k ≠ kMax → cnt k < cnt kMax) →
      order.foldl (fun acc k => if cnt k > acc.2 then (k, cnt k) else acc) acc
        = (kMax, cnt kMax) := by
  intro order
  induction order with
  | nil => intro acc hmem; cases hmem
  | cons a rest ih =>
      intro acc hmem hlt hothers
      by_cases ha : a = kMax
      · subst ha
        simp only [List.foldl_cons]
        rw [if_pos (by omega)]
        exact foldl_decision_no_update cnt rest (a, cnt a)
          (fun k hk => by
            by_cases hkk : k = a
            · subst hkk; exact le_refl _
            · exact le_of_lt (hothers k (List.mem_cons_of_mem a hk) hkk))
      · have hmem2 : kMax ∈ rest := by
          rcases List.mem_cons.mp hmem with h | h
          · exact absurd h.symm ha
          · exact h
        have halt : cnt a < cnt kMax := hothers a (List.mem_cons_self a rest) ha
        have hrest : ∀ k ∈ rest, k ≠ kMax → cnt k < cnt kMax :=
          fun k hk => hothers k (List.mem_cons_of_mem a hk)
        simp only [List.foldl_cons]
        by_cases hup : cnt a > acc.2
        · rw [if_pos hup]
          exact ih (a, cnt a) hmem2 halt hrest
        · rw [if_neg hup]
          exact ih acc hmem2 hlt hrest

/-- C1: every signal message is classified case-insensitively into exactly one
of the four buckets (BUY before SELL before STRADDLE before HOLD, by keyword);
whatever order the bucket map is scanned in, the final decision is HOLD unless
some bucket's count strictly exceeds HOLD's; and on the three-message example
list (two CALL, one PUT) the decision is BUY. -/
theorem getFinalDecision_spec (iterOrder : List String)
    (horder : iterOrder.Perm decisionKeys) (signals : List String) :
    (∀ s, classifySignal s ∈ decisionKeys) ∧
    ((∀ k ∈ decisionKeys, signalCount signals k ≤ signalCount signals "HOLD") →
      getFinalDecisionFromSignals iterOrder signals = "HOLD") ∧
    getFinalDecisionFromSignals iterOrder
      ["10:01 CALL: ...", "10:02 CALL: ...", "10:03 PUT: ..."] = "BUY" := by
  refine ⟨?_, ?_, ?_⟩
  · intro s
    unfold classifySignal decisionKeys
    dsimp only
    split_ifs <;> simp
  · intro h
    unfold getFinalDecisionFromSignals
    rw [foldl_decision_no_update (signalCount signals) iterOrder
      ("HOLD", signalCount signals "HOLD")
      (fun k hk => h k (horder.mem_iff.mp hk))]
  · unfold getFinalDecisionFromSignals
    rw [foldl_decision_max
      (signalCount ["10:01 CALL: ...", "10:02 CALL: ...", "10:03 PUT: ..."]) "BUY" iterOrder
      ("HOLD", signalCount ["10:01 CALL: ...", "10:02 CALL: ...", "10:03 PUT: ..."] "HOLD")
      (horder.mem_iff.mpr (by decide))
      (by decide)
      ?_]
    intro k hk hne
    have hkkeys : k ∈ decisionKeys := horder.mem_iff.mp hk
    simp only [decisionKeys, List.mem_cons, List.not_mem_nil, or_false] at hkkeys
    rcases hkkeys with rfl | rfl | rfl | rfl
    · exact absurd rfl hne
    · decide
    · decide
    · decide

/-- Witness for C1 at a concrete iteration order and signal list. -/
theorem getFinalDecision_spec_witness :
    getFinalDecisionFromSignals decisionKeys
      ["10:01 CALL: ...", "10:02 CALL: ...", "10:03 PUT: ..."] = "BUY" :=
  (getFinalDecision_spec decisionKeys (List.Perm.refl _) []).2.2

/-! ## Theorems: AnalysisRunner -/

/-- C2: a run whose enriched bars are non-empty but whose signal list is empty
returns the "no signals" error, and the persistence collaborator is never
invoked. -/
theorem analyseMain_zero_signals (bars : List RawBar) (dbResult : Except String Unit)
    (hbars : 0 < (enhanceData bars).length)
    (hsig : generateSignals (enhanceData bars) = []) :
    analyseMain (.ok bars) dbResult = ⟨.failure "no signals or enhanced bars", false⟩ := by
  have h1 : ¬ (enhanceData bars).length = 0 := by omega
  simp [analyseMain, h1, hsig]

/-- Witness for C2: a single-bar run enriches to one bar but generates no
signal (the first three indices are skipped), and the run errors without
touching persistence. -/
theorem analyseMain_zero_signals_witness :
    analyseMain (.ok [⟨0, 1, 1, 1, 1, 1, 1, 1⟩]) (.ok ())
      = ⟨.failure "no signals or enhanced bars", false⟩ :=
  analyseMain_zero_signals [⟨0, 1, 1, 1, 1, 1, 1, 1⟩] (.ok ())
    (by with_unfolding_all decide) (by with_unfolding_all decide)

/-- C8 (code bug evidence): when the market-data fetch fails, `AnalyseMain`
calls `log.Fatal`, so the process exits and no error value is returned to the
caller — contradicting the documented "analysis failure is reported as the
run's error result" behaviour relied on by the HTTP handler. -/
theorem analyseMain_fetch_error_fatal (e : String) (dbResult : Except String Unit) :
    analyseMain (.error e) dbResult = ⟨.fatalExit, false⟩ := rfl

/-! ## Theorems: SignalGenerator -/

/-- Each conditional append of the loop body is an append of a conditional
singleton. -/
lemma append_ite_list (c : Prop) [Decidable c] (xs ms : List String) :
    (if c then xs ++ ms else xs) = xs ++ (if c then ms else []) := by
  split_ifs <;> simp

/-- Below index 3 the loop body is the identity on the accumulated signals. -/
lemma generateSignalsBody_skip (bars : List EnhancedBar) (acc : List String) (i : Nat)
    (hi : i < 3) : generateSignalsBody bars acc i = acc := by
  unfold generateSignalsBody
  rw [if_pos hi]

/-- Abstract shape of the loop body: a chain of conditional single-message
appends equals the accumulator followed by the conditional singletons. -/
lemma body_shape (c1 c2 c3 c4 c5 c6 c7 c8 : Bool) (m1 m2 m3 m4 m5 m6 m7 m8 : String)
    (acc : List String) :
    (let s1 := if c1 then acc ++ [m1] else acc
     let s2 := if c2 then s1 ++ [m2] else s1
     let s3 := if c3 then s2 ++ [m3] else s2
     let s4 := if c4 then s3 ++ [m4] else s3
     let s5 := if c5 then s4 ++ [m5] else s4
     let s6 := if c6 then s5 ++ [m6] else s5
     if c7 then s6 ++ [m7] else if c8 then s6 ++ [m8] else s6)
      = acc ++
        ((if c1 then [m1] else []) ++
         (if c2 then [m2] else []) ++
         (if c3 then [m3] else []) ++
         (if c4 then [m4] else []) ++
         (if c5 then [m5] else []) ++
         (if c6 then [m6] else []) ++
         (if c7 then [m7] else if c8 then [m8] else [])) := by
  cases c1 <;> cases c2 <;> cases c3 <;> cases c4 <;> cases c5 <;> cases c6 <;> cases c7 <;>
    cases c8 <;> simp

/-- From index 3 on, the loop body appends exactly the bar's rule messages. -/
lemma generateSignalsBody_eq (bars : List EnhancedBar) (acc : List String) (i : Nat)
    (hi : ¬ i < 3) : generateSignalsBody bars acc i = acc ++ barSignals bars i := by
  unfold generateSignalsBody barSignals
  rw [if_neg hi]
  exact body_shape _ _ _ _ _ _ _ _ _ _ _ _ _ _ _ _ acc

/-- The signal loop over any index list is the accumulator followed by the
per-index messages. -/
lemma generateSignals_foldl (bars : List EnhancedBar) :
    ∀ (idxs : List Nat) (acc : List String),
      idxs.foldl (generateSignalsBody bars) acc
        = acc ++ idxs.flatMap (fun i => if i < 3 then [] else barSignals bars i) := by
  intro idxs
  induction idxs with
  | nil => intro acc; simp
  | cons i rest ih =>
      intro acc
      simp only [List.foldl_cons, List.flatMap_cons]
      by_cases hi : i < 3
      · rw [generateSignalsBody_skip bars acc i hi, ih, if_pos hi]
        simp
      · rw [generateSignalsBody_eq bars acc i hi, ih, if_neg hi]
        simp

/-- C6: the signal generator emits nothing for bars at indices 0, 1, 2 (in
particular a run of at most three bars yields no signal at all); each later
bar appends exactly its matching messages in the fixed rule order 1–8; and the
directional rules 7 and 8 can never both fire on one bar. -/
theorem generateSignals_correct (bars : List EnhancedBar) :
    generateSignals bars = generateSignalsSpec bars ∧
    (bars.length ≤ 3 → generateSignals bars = []) ∧
    (∀ bar : EnhancedBar, ¬(rule7Cond bar = true ∧ rule8Cond bar = true)) := by
  have hmain : generateSignals bars = generateSignalsSpec bars := by
    unfold generateSignals generateSignalsSpec
    rw [generateSignals_foldl bars (List.range bars.length) []]
    simp
  refine ⟨hmain, ?_, ?_⟩
  · intro hlen
    rw [hmain]
    unfold generateSignalsSpec
    refine List.flatMap_eq_nil_iff.mpr ?_
    intro i hi
    have : i < 3 := by
      have := List.mem_range.mp hi
      omega
    rw [if_pos this]
  · rintro bar ⟨h7, h8⟩
    simp only [rule7Cond, rule8Cond, Bool.and_eq_true, decide_eq_true_eq] at h7 h8
    exact (lt_asymm h7.1.2) h8.1.2

/-! ## Theorems: BarEnricher refinement -/

lemma volumesOf_append (bs : List RawBar) (b : RawBar) :
    volumesOf (bs ++ [b]) = volumesOf bs ++ [b.Volume] := by
  simp [volumesOf]

lemma rangesOf_append (bs : List RawBar) (b : RawBar) :
    rangesOf (bs ++ [b]) = rangesOf bs ++ [b.High - b.Low] := by
  simp [rangesOf]

lemma vptHistory_append (bs : List RawBar) (b : RawBar) :
    vptHistory (bs ++ [b])
      = vptHistory bs ++
        (if b.Transactions > 0 then [b.Volume / b.Transactions] else []) := by
  by_cases ht : b.Transactions > 0 <;> simp [vptHistory, List.filter_append, ht]

/-- The state of `enhanceData` after consuming `bars`, in closed form. -/
def enhanceStateSpec (bars : List RawBar) : EnhanceState :=
  ⟨(volumesOf bars).sum,
   (bars.map (fun x => x.Volume * x.VWAP)).sum,
   volumesOf bars,
   rangesOf bars,
   vptHistory bars,
   (List.range bars.length).map (fun i => enrichedAt bars i)⟩

lemma enrichedAt_Close (bars : List RawBar) (i : Nat) :
    (enrichedAt bars i).Close = (bars.getD i default).Close := rfl

lemma enrichedAt_Open (bars : List RawBar) (i : Nat) :
    (enrichedAt bars i).Open = (bars.getD i default).Open := rfl

/-- The closed form only looks at the prefix up to its index, so appending a
bar does not disturb earlier enriched bars. -/
lemma enrichedAt_append (bs : List RawBar) (b : RawBar) (i : Nat) (hi : i < bs.length) :
    enrichedAt (bs ++ [b]) i = enrichedAt bs i := by
  unfold enrichedAt
  rw [List.getD_append _ _ _ _ hi, List.getD_append _ _ _ _ (by omega : i - 1 < bs.length)]
  have htake : (bs ++ [b]).take (i + 1) = bs.take (i + 1) := by
    rw [List.take_append_eq_append_take, (by omega : i + 1 - bs.length = 0)]
    simp
  rw [htake]

lemma range_map_getLast (f : Nat → EnhancedBar) (n : Nat) (hn : 0 < n) :
    ((List.range n).map f).getLast? = some (f (n - 1)) := by
  obtain ⟨m, rfl⟩ : ∃ m, n = m + 1 := ⟨n - 1, by omega⟩
  rw [List.range_succ, List.map_append]
  simp

/-- The loop state of `enhanceData` equals its closed form after any prefix. -/
lemma enhance_foldl (bars : List RawBar) :
    bars.foldl enhanceStep initEnhanceState = enhanceStateSpec bars := by
  induction bars using List.reverseRecOn with
  | nil => rfl
  | append_singleton bs b ih =>
      rw [List.foldl_append, List.foldl_cons, List.foldl_nil, ih]
      have hgb : (bs ++ [b]).getD bs.length default = b := by simp
      have htake : (bs ++ [b]).take (bs.length + 1) = bs ++ [b] := by
        apply List.take_of_length_le
        simp
      simp only [enhanceStep, enhanceStateSpec, EnhanceState.mk.injEq]
      refine ⟨?_, ?_, ?_, ?_, ?_, ?_⟩
      · rw [volumesOf_append]; simp
      · simp
      · rw [volumesOf_append]
      · rw [rangesOf_append]
      · rw [vptHistory_append]
        by_cases ht : b.Transactions > 0 <;> simp [ht]
      · rw [List.length_append, List.length_singleton, List.range_succ, List.map_append]
        congr 1
        · exact List.map_congr_left
            (fun i hi => (enrichedAt_append bs b i (List.mem_range.mp hi)).symm)
        · simp only [List.map_cons, List.map_nil, List.cons.injEq, and_true]
          unfold enrichedAt
          rw [hgb, htake]
          simp only [EnhancedBar.mk.injEq, and_true, true_and]
          refine ⟨?_, ?_, ?_, ?_, ?_, ?_⟩
          · rw [volumesOf_append]
            simp
          · rw [volumesOf_append]
          · by_cases hn : bs.length = 0
            · rw [if_pos hn]
              have : bs = [] := List.length_eq_zero.mp hn
              subst this
              rfl
            · rw [if_neg hn, range_map_getLast _ _ (by omega)]
              rw [List.getD_append _ _ _ _ (by omega : bs.length - 1 < bs.length)]
          · by_cases hn : bs.length = 0
            · rw [if_pos hn]
              have : bs = [] := List.length_eq_zero.mp hn
              subst this
              rfl
            · rw [if_neg hn, range_map_getLast _ _ (by omega)]
              rw [List.getD_append _ _ _ _ (by omega : bs.length - 1 < bs.length)]
          · rw [vptHistory_append]
            by_cases ht : b.Transactions > 0 <;> simp [ht]
          · rw [rangesOf_append]

/-- `enhanceData` produces exactly the closed-form enriched bars, in order. -/
lemma enhanceData_eq (bars : List RawBar) :
    enhanceData bars = (List.range bars.length).map (fun i => enrichedAt bars i) := by
  unfold enhanceData
  rw [enhance_foldl]
  rfl

lemma enhanceData_length (bars : List RawBar) :
    (enhanceData bars).length = bars.length := by
  rw [enhanceData_eq]
  simp

lemma enhanceData_getD (bars : List RawBar) (i : Nat) (h : i < bars.length) :
    (enhanceData bars).getD i default = enrichedAt bars i := by
  rw [enhanceData_eq, List.getD_eq_getElem?_getD, List.getElem?_map, List.getElem?_range h]
  rfl

lemma take_succ_getD (bars : List RawBar) (i : Nat) (hib : i < bars.length) :
    bars.take (i + 1) = bars.take i ++ [bars.getD i default] := by
  rw [List.take_succ, List.getElem?_eq_getElem hib]
  rw [List.getD_eq_getElem?_getD, List.getElem?_eq_getElem hib]
  rfl

/-- C4: the ATR of the enriched bar at index `i` is 0 while fewer than 14
ranges have been seen (the current one included), and afterwards it is the sum
of the 14 most recent per-bar ranges divided by 14 — a window that indeed has
exactly 14 entries, so at exactly 14 bars the ATR is the mean of all 14
ranges. -/
theorem atr_spec (bars : List RawBar) (i : Nat) (h : i < (enhanceData bars).length) :
    ((enhanceData bars).getD i default).ATR
        = (if i + 1 < 14 then 0
           else ((rangesOf (bars.take (i + 1))).drop (i + 1 - 14)).sum / 14) ∧
    (14 ≤ i + 1 → ((rangesOf (bars.take (i + 1))).drop (i + 1 - 14)).length = 14) := by
  have hib : i < bars.length := by rwa [enhanceData_length] at h
  rw [enhanceData_getD bars i hib]
  have hlen : (rangesOf (bars.take (i + 1))).length = i + 1 := by
    simp only [rangesOf, List.length_map, List.length_take]
    omega
  constructor
  · have hfield : (enrichedAt bars i).ATR = calculateATR (rangesOf (bars.take (i + 1))) 14 := rfl
    rw [hfield]
    unfold calculateATR
    rw [hlen]
    norm_num
  · intro h14
    rw [List.length_drop, hlen]
    omega

def atrBars : List RawBar :=
  (List.range 14).map (fun k => ⟨k, 0, 0, ((k : ℚ) + 1), 0, 0, 0, 0⟩)

/-- Witness for C4 at a 14-bar input whose ranges are 1..14. -/
theorem atr_spec_witness :
    (13 : Nat) < (enhanceData atrBars).length ∧
    (((enhanceData atrBars).getD 13 default).ATR
        = (if 13 + 1 < 14 then 0
           else ((rangesOf (atrBars.take (13 + 1))).drop (13 + 1 - 14)).sum / 14) ∧
      (14 ≤ 13 + 1 → ((rangesOf (atrBars.take (13 + 1))).drop (13 + 1 - 14)).length = 14)) :=
  ⟨by with_unfolding_all decide, atr_spec atrBars 13 (by with_unfolding_all decide)⟩

/-- The nearest-rank form of `quantile` at `q = 0.9`: on any nonempty data it
returns the element at index `⌊0.9 · (n−1)⌋` of the ascending sort of the
data. -/
lemma quantile_nearest_rank (data sorted : List ℚ) (hne : data ≠ [])
    (hperm : sorted.Perm data) (hsorted : sorted.Sorted (· ≤ ·)) :
    quantile data (9 / 10) = sorted.getD (9 * (data.length - 1) / 10) 0 := by
  have hlen : ¬ data.length = 0 := by
    intro h0
    exact hne (List.length_eq_zero.mp h0)
  unfold quantile
  rw [if_neg hlen]
  have hsort : sortAsc data = sorted :=
    List.eq_of_perm_of_sorted ((List.perm_insertionSort _ data).trans hperm.symm)
      (List.sorted_insertionSort _ data) hsorted
  dsimp only
  rw [hsort]
  congr 1
  obtain ⟨m, hm⟩ : ∃ m, data.length = m + 1 := ⟨data.length - 1, by omega⟩
  rw [hm]
  have h1 : ((m + 1 : ℕ) : ℚ) - 1 = (m : ℚ) := by push_cast; ring
  have h2 : (9 : ℚ) / 10 * (m : ℚ) = ((9 * m : ℕ) : ℚ) / ((10 : ℕ) : ℚ) := by
    push_cast
    ring
  unfold truncToInt
  rw [h1, if_pos (by positivity), h2, Rat.floor_natCast_div_natCast]
  have h3 : ((9 * m : ℕ) : ℤ) / ((10 : ℕ) : ℤ) = ((9 * m / 10 : ℕ) : ℤ) := rfl
  rw [h3, Int.toNat_natCast]
  omega

/-- C5: at a bar with a positive transaction count, the volume-per-transaction
value is appended to the running history, and the institutional-flow flag is
set exactly when that value strictly exceeds the 90th percentile of the
history so far (current value included); the percentile is the
nearest-rank element at index ⌊0.9 · (n−1)⌋ of the ascending sort, and for the
history [1,…,10] it is 9. -/
theorem institutionalFlow_spec (bars : List RawBar) (i : Nat)
    (h : i < (enhanceData bars).length)
    (ht : (bars.getD i default).Transactions > 0) :
    vptHistory (bars.take (i + 1))
        = vptHistory (bars.take i) ++
            [(bars.getD i default).Volume / (bars.getD i default).Transactions] ∧
    (((enhanceData bars).getD i default).InstitutionalFlow = true ↔
        (bars.getD i default).Volume / (bars.getD i default).Transactions
          > quantile (vptHistory (bars.take (i + 1))) (9 / 10)) ∧
    (∀ (data sorted : List ℚ), data ≠ [] → sorted.Perm data → sorted.Sorted (· ≤ ·) →
        quantile data (9 / 10) = sorted.getD (9 * (data.length - 1) / 10) 0) ∧
    quantile [1, 2, 3, 4, 5, 6, 7, 8, 9, 10] (9 / 10) = 9 := by
  have hib : i < bars.length := by rwa [enhanceData_length] at h
  refine ⟨?_, ?_, quantile_nearest_rank, ?_⟩
  · rw [take_succ_getD bars i hib, vptHistory_append, if_pos ht]
  · rw [enhanceData_getD bars i hib]
    have hfield : (enrichedAt bars i).InstitutionalFlow
        = if (bars.getD i default).Transactions > 0 then
            decide ((bars.getD i default).Volume / (bars.getD i default).Transactions
              > quantile (vptHistory (bars.take (i + 1))) (9 / 10))
          else false := rfl
    rw [hfield, if_pos ht]
    simp
  · with_unfolding_all decide

def flowBar : RawBar := ⟨0, 0, 0, 0, 0, 10, 2, 0⟩

/-- Witness for C5 at a single bar with 10 volume over 2 transactions. -/
theorem institutionalFlow_spec_witness :
    vptHistory ([flowBar].take (0 + 1))
        = vptHistory ([flowBar].take 0) ++
            [([flowBar].getD 0 default).Volume / ([flowBar].getD 0 default).Transactions] ∧
    (((enhanceData [flowBar]).getD 0 default).InstitutionalFlow = true ↔
        ([flowBar].getD 0 default).Volume / ([flowBar].getD 0 default).Transactions
          > quantile (vptHistory ([flowBar].take (0 + 1))) (9 / 10)) ∧
    quantile [1, 2, 3, 4, 5, 6, 7, 8, 9, 10] (9 / 10) = 9 := by
  have h := institutionalFlow_spec [flowBar] 0 (by with_unfolding_all decide)
    (by with_unfolding_all decide)
  exact ⟨h.1, h.2.1, h.2.2.2⟩

/-- C10: the bar contributing the first entry of the volume-per-transaction
history always has `institutional_flow = false`: the 90th percentile of a
one-element history is that element, and the comparison is strict. -/
theorem firstFlow_false (bars : List RawBar) (i : Nat)
    (h : i < (enhanceData bars).length)
    (ht : (bars.getD i default).Transactions > 0)
    (hfirst : ∀ b ∈ bars.take i, ¬ b.Transactions > 0) :
    ((enhanceData bars).getD i default).InstitutionalFlow = false := by
  have hib : i < bars.length := by rwa [enhanceData_length] at h
  rw [enhanceData_getD bars i hib]
  have hpre : vptHistory (bars.take i) = [] := by
    unfold vptHistory
    rw [List.filter_eq_nil_iff.mpr (fun a ha => by simpa using hfirst a ha)]
    rfl
  have hhist : vptHistory (bars.take (i + 1))
      = [(bars.getD i default).Volume / (bars.getD i default).Transactions] := by
    rw [take_succ_getD bars i hib, vptHistory_append, if_pos ht, hpre]
    rfl
  have hfield : (enrichedAt bars i).InstitutionalFlow
      = if (bars.getD i default).Transactions > 0 then
          decide ((bars.getD i default).Volume / (bars.getD i default).Transactions
            > quantile (vptHistory (bars.take (i + 1))) (9 / 10))
        else false := rfl
  have hq : ∀ v : ℚ, quantile [v] (9 / 10) = v := by
    intro v
    unfold quantile sortAsc truncToInt
    norm_num [List.insertionSort, List.orderedInsert]
  rw [hfield, if_pos ht, hhist, hq]
  simp [lt_irrefl]

def preBar : RawBar := ⟨0, 0, 0, 0, 0, 5, 0, 0⟩
def firstFlowBar : RawBar := ⟨1, 0, 0, 0, 0, 10, 2, 0⟩

/-- Witness for C10: the second bar is the first with transactions, and its
flag is false. -/
theorem firstFlow_false_witness :
    ((enhanceData [preBar, firstFlowBar]).getD 1 default).InstitutionalFlow = false :=
  firstFlow_false [preBar, firstFlowBar] 1 (by with_unfolding_all decide)
    (by with_unfolding_all decide) (by with_unfolding_all decide)

def vwapBar : RawBar := ⟨0, 0, 0, 0, 0, 0, 0, 1⟩

/-- C9 counterexample: a one-bar input whose only bar has raw vwap 1 but
volume 0; its enriched `cumulative_vwap` is 0, not 1, because the running
volume never becomes positive. -/
theorem cumulativeVWAP_const_counterexample :
    (∀ b ∈ [vwapBar], b.VWAP = 1) ∧
    0 < (enhanceData [vwapBar]).length ∧
    ((enhanceData [vwapBar]).getD 0 default).CumulativeVWAP ≠ 1 := by
  with_unfolding_all decide

/-- C9 (amended): if every bar's raw vwap equals the constant `V`, then every
enriched bar at which the running volume so far is positive has
`cumulative_vwap = V` (bars at which the running volume is not positive keep
the zero value, as the counterexample shows). -/
theorem cumulativeVWAP_const (bars : List RawBar) (V : ℚ)
    (hV : ∀ b ∈ bars, b.VWAP = V) (i : Nat) (h : i < (enhanceData bars).length)
    (hvol : 0 < (volumesOf (bars.take (i + 1))).sum) :
    ((enhanceData bars).getD i default).CumulativeVWAP = V := by
  have hib : i < bars.length := by rwa [enhanceData_length] at h
  rw [enhanceData_getD bars i hib]
  have hfield : (enrichedAt bars i).CumulativeVWAP
      = if (volumesOf (bars.take (i + 1))).sum > 0 then
          ((bars.take (i + 1)).map (fun x => x.Volume * x.VWAP)).sum
            / (volumesOf (bars.take (i + 1))).sum
        else 0 := rfl
  rw [hfield, if_pos hvol]
  have hmap : ((bars.take (i + 1)).map (fun x => x.Volume * x.VWAP))
      = ((bars.take (i + 1)).map (fun x => x.Volume * V)) :=
    List.map_congr_left (fun x hx => by rw [hV x (List.mem_of_mem_take hx)])
  rw [hmap, List.sum_map_mul_right]
  have hvolsum : (List.map (fun b => b.Volume) (bars.take (i + 1))).sum
      = (volumesOf (bars.take (i + 1))).sum := rfl
  rw [hvolsum, mul_comm, mul_div_assoc, div_self (ne_of_gt hvol), mul_one]

def constVwapBar : RawBar := ⟨0, 0, 0, 0, 0, 2, 0, 3⟩

/-- Witness for the amended C9: one bar with volume 2 and vwap 3. -/
theorem cumulativeVWAP_const_witness :
    ((enhanceData [constVwapBar]).getD 0 default).CumulativeVWAP = 3 :=
  cumulativeVWAP_const [constVwapBar] 3 (by with_unfolding_all decide) 0
    (by with_unfolding_all decide) (by with_unfolding_all decide)

/-! ## Theorems: BoundedCorrelator -/

/-- A goroutine has contributed its result once it is `appended` or `done`. -/
def TaskPhase.hasAppended : TaskPhase → Bool
  | .appended => true
  | .done => true
  | _ => false

/-- The results contributed so far: one per task whose append has happened. -/
def selResults (decoder : String → Except String TradeAnalysisResponse) :
    List TaskPhase → List (EarningsResult × LookupOutcome) → List EarningsBigMoneyResult
  | p :: pt, e :: et =>
      if p.hasAppended then
        analyzeTickerBigMoney decoder e.1 e.2 :: selResults decoder pt et
      else selResults decoder pt et
  | _, _ => []

/-- Setting one element changes a `countP` by the difference of the
indicator at that position. -/
lemma countP_set {α : Type} (p : α → Bool) (d : α) :
    ∀ (l : List α) (i : Nat) (v : α), i < l.length →
      (l.set i v).countP p + (if p (l.getD i d) then 1 else 0)
        = l.countP p + (if p v then 1 else 0) := by
  intro l
  induction l with
  | nil => intro i v h; simp at h
  | cons a t ih =>
      intro i v h
      cases i with
      | zero =>
          simp only [List.set, List.getD_cons_zero, List.countP_cons]
          split_ifs <;> omega
      | succ n =>
          simp only [List.set, List.getD_cons_succ, List.countP_cons]
          have := ih n v (by simpa using h)
          omega

/-- Replacing a phase by one with the same contribution status leaves the
contributed results unchanged. -/
lemma selResults_set_same (decoder : String → Except String TradeAnalysisResponse) :
    ∀ (phases : List TaskPhase) (events : List (EarningsResult × LookupOutcome))
      (i : Nat) (v : TaskPhase),
      TaskPhase.hasAppended (phases.getD i .done) = TaskPhase.hasAppended v →
      selResults decoder (phases.set i v) events = selResults decoder phases events := by
  intro phases
  induction phases with
  | nil => intro events i v _; simp
  | cons p pt ih =>
      intro events i v hsame
      cases events with
      | nil => cases i <;> simp [selResults]
      | cons e et =>
          cases i with
          | zero =>
              rw [List.getD_cons_zero] at hsame
              simp only [List.set, selResults, hsame]
          | succ n =>
              rw [List.getD_cons_succ] at hsame
              simp only [List.set, selResults, ih et n v hsame]

/-- Flipping one phase from not-contributed to contributed adds exactly that
task's result (as a permutation). -/
lemma selResults_set_flip (decoder : String → Except String TradeAnalysisResponse) :
    ∀ (phases : List TaskPhase) (events : List (EarningsResult × LookupOutcome))
      (i : Nat) (v : TaskPhase),
      i < phases.length → phases.length = events.length →
      TaskPhase.hasAppended (phases.getD i .done) = false →
      TaskPhase.hasAppended v = true →
      (selResults decoder (phases.set i v) events).Perm
        (analyzeTickerBigMoney decoder (events.getD i default).1 (events.getD i default).2
          :: selResults decoder phases events) := by
  intro phases
  induction phases with
  | nil => intro events i v hi; simp at hi
  | cons p pt ih =>
      intro events i v hi hlen hold hnew
      cases events with
      | nil => simp at hlen
      | cons e et =>
          cases i with
          | zero =>
              rw [List.getD_cons_zero] at hold
              simp only [List.set, selResults, hold, hnew, List.getD_cons_zero,
                Bool.false_eq_true, if_false, if_true]
              exact List.Perm.refl _
          | succ n =>
              rw [List.getD_cons_succ] at hold
              have hperm := ih et n v (by simpa using hi) (by simpa using hlen) hold hnew
              by_cases hp : TaskPhase.hasAppended p = true
              · simp only [List.set, selResults, hp, if_true, List.getD_cons_succ]
                exact (hperm.cons _).trans (List.Perm.swap _ _ _)
              · simp only [List.set, selResults, hp, Bool.false_eq_true, if_false,
                  List.getD_cons_succ]
                exact hperm

/-- Once every task is done, the contributed results are exactly one per
event, in event order. -/
lemma selResults_all_done (decoder : String → Except String TradeAnalysisResponse) :
    ∀ (phases : List TaskPhase) (events : List (EarningsResult × LookupOutcome)),
      (∀ p ∈ phases, p = TaskPhase.done) → phases.length = events.length →
      selResults decoder phases events
        = events.map (fun e => analyzeTickerBigMoney decoder e.1 e.2) := by
  intro phases
  induction phases with
  | nil =>
      intro events _ hlen
      cases events with
      | nil => rfl
      | cons e et => simp at hlen
  | cons p pt ih =>
      intro events hall hlen
      cases events with
      | nil => simp at hlen
      | cons e et =>
          have hp : p = TaskPhase.done := hall p (List.mem_cons_self p pt)
          subst hp
          simp only [selResults, TaskPhase.hasAppended, if_true, List.map_cons]
          exact congrArg _ (ih et (fun q hq => hall q (List.mem_cons_of_mem _ hq))
            (by simpa using hlen))

/-- The invariant of the fan-out: phases track events one-to-one, at most
five lookups are in flight, the wait-group counter counts the tasks that have
not called `wg.Done`, the `results` slice holds exactly the contributions of
the tasks that have appended (in some order), and once the summary is taken
the wait group was at zero and the summary is the summary of the results. -/
def CorrInv (decoder : String → Except String TradeAnalysisResponse)
    (events : List (EarningsResult × LookupOutcome)) (s : CorrState) : Prop :=
  s.phases.length = events.length ∧
  holders s ≤ 5 ∧
  s.wgCount = s.phases.countP TaskPhase.pending ∧
  s.results.Perm (selResults decoder s.phases events) ∧
  (s.summaryDone = true →
    s.phases.countP TaskPhase.pending = 0 ∧ s.summary = computeSummary s.results)

lemma pending_pos (s : CorrState) (i : Nat) (ph : TaskPhase)
    (hget : s.phases.getD i .done = ph) (hph : ph.pending = true) :
    0 < s.phases.countP TaskPhase.pending := by
  have hi : i < s.phases.length := by
    by_contra hno
    rw [List.getD_eq_default _ _ (by omega)] at hget
    subst hget
    simp [TaskPhase.pending] at hph
  rw [List.getD_eq_getElem?_getD, List.getElem?_eq_getElem hi] at hget
  exact List.countP_pos_iff.mpr ⟨ph, hget ▸ List.getElem_mem hi, hph⟩

lemma guard_lt_length (s : CorrState) (i : Nat) (ph : TaskPhase)
    (hget : s.phases.getD i .done = ph) (hph : ph ≠ TaskPhase.done) :
    i < s.phases.length := by
  by_contra hno
  rw [List.getD_eq_default _ _ (by omega)] at hget
  exact hph hget.symm

/-- Every enabled step preserves the invariant. -/
lemma corrStep_inv (decoder : String → Except String TradeAnalysisResponse)
    (events : List (EarningsResult × LookupOutcome)) (s s2 : CorrState) (a : CorrAction)
    (hinv : CorrInv decoder events s) (hstep : corrStep decoder events s a = some s2) :
    CorrInv decoder events s2 := by
  obtain ⟨hlen, hhold, hwg, hres, hsum⟩ := hinv
  cases a with
  | acquire i =>
      by_cases hg : i < s.phases.length ∧ s.phases.getD i .done = .notStarted ∧ holders s < 5
      case neg =>
        simp only [corrStep, if_neg hg] at hstep
        exact Option.noConfusion hstep
      case pos =>
        simp only [corrStep, if_pos hg] at hstep
        obtain ⟨hi, hph, hcap⟩ := hg
        injection hstep with hs2
        subst hs2
        have hcount := countP_set TaskPhase.inFlight TaskPhase.done s.phases i .running hi
        have hcount2 := countP_set TaskPhase.pending TaskPhase.done s.phases i .running hi
        rw [hph] at hcount hcount2
        simp only [show TaskPhase.inFlight TaskPhase.notStarted = false from rfl,
          show TaskPhase.inFlight TaskPhase.running = true from rfl,
          show TaskPhase.pending TaskPhase.notStarted = true from rfl,
          show TaskPhase.pending TaskPhase.running = true from rfl,
          eq_self_iff_true, Bool.false_eq_true, if_true, if_false, Nat.add_zero]
          at hcount hcount2
        have hcapc : s.phases.countP TaskPhase.inFlight < 5 := hcap
        refine ⟨by simpa using hlen, ?_, ?_, ?_, ?_⟩
        · show (s.phases.set i TaskPhase.running).countP TaskPhase.inFlight ≤ 5
          omega
        · show s.wgCount = (s.phases.set i TaskPhase.running).countP TaskPhase.pending
          omega
        · show s.results.Perm (selResults decoder (s.phases.set i TaskPhase.running) events)
          rw [selResults_set_same decoder s.phases events i .running (by rw [hph]; rfl)]
          exact hres
        · intro hsd
          exfalso
          have hpos := pending_pos s i .notStarted hph rfl
          have := (hsum hsd).1
          omega
  | append i =>
      by_cases hg : s.phases.getD i .done = .running
      case neg =>
        simp only [corrStep, if_neg hg] at hstep
        exact Option.noConfusion hstep
      case pos =>
        simp only [corrStep, if_pos hg] at hstep
        injection hstep with hs2
        subst hs2
        have hi : i < s.phases.length := guard_lt_length s i .running hg (by simp)
        have hcount := countP_set TaskPhase.inFlight TaskPhase.done s.phases i .appended hi
        have hcount2 := countP_set TaskPhase.pending TaskPhase.done s.phases i .appended hi
        rw [hg] at hcount hcount2
        simp only [show TaskPhase.inFlight TaskPhase.running = true from rfl,
          show TaskPhase.inFlight TaskPhase.appended = true from rfl,
          show TaskPhase.pending TaskPhase.running = true from rfl,
          show TaskPhase.pending TaskPhase.appended = true from rfl,
          eq_self_iff_true, if_true] at hcount hcount2
        have hholdc : s.phases.countP TaskPhase.inFlight ≤ 5 := hhold
        refine ⟨by simpa using hlen, ?_, ?_, ?_, ?_⟩
        · show (s.phases.set i TaskPhase.appended).countP TaskPhase.inFlight ≤ 5
          omega
        · show s.wgCount = (s.phases.set i TaskPhase.appended).countP TaskPhase.pending
          omega
        · show (s.results ++
            [analyzeTickerBigMoney decoder (events.getD i default).1
              (events.getD i default).2]).Perm
            (selResults decoder (s.phases.set i TaskPhase.appended) events)
          have hflip := selResults_set_flip decoder s.phases events i .appended hi hlen
            (by rw [hg]; rfl) rfl
          exact (List.perm_append_singleton _ _).trans ((hres.cons _).trans hflip.symm)
        · intro hsd
          exfalso
          have hpos := pending_pos s i .running hg rfl
          have := (hsum hsd).1
          omega
  | release i =>
      by_cases hg : s.phases.getD i .done = .appended
      case neg =>
        simp only [corrStep, if_neg hg] at hstep
        exact Option.noConfusion hstep
      case pos =>
        simp only [corrStep, if_pos hg] at hstep
        injection hstep with hs2
        subst hs2
        have hi : i < s.phases.length := guard_lt_length s i .appended hg (by simp)
        have hcount := countP_set TaskPhase.inFlight TaskPhase.done s.phases i .done hi
        have hcount2 := countP_set TaskPhase.pending TaskPhase.done s.phases i .done hi
        rw [hg] at hcount hcount2
        simp only [show TaskPhase.inFlight TaskPhase.appended = true from rfl,
          show TaskPhase.inFlight TaskPhase.done = false from rfl,
          show TaskPhase.pending TaskPhase.appended = true from rfl,
          show TaskPhase.pending TaskPhase.done = false from rfl,
          eq_self_iff_true, Bool.false_eq_true, if_true, if_false, Nat.add_zero]
          at hcount hcount2
        have hholdc : s.phases.countP TaskPhase.inFlight ≤ 5 := hhold
        refine ⟨by simpa using hlen, ?_, ?_, ?_, ?_⟩
        · show (s.phases.set i TaskPhase.done).countP TaskPhase.inFlight ≤ 5
          omega
        · show s.wgCount - 1 = (s.phases.set i TaskPhase.done).countP TaskPhase.pending
          omega
        · show s.results.Perm (selResults decoder (s.phases.set i TaskPhase.done) events)
          rw [selResults_set_same decoder s.phases events i .done (by rw [hg]; rfl)]
          exact hres
        · intro hsd
          exfalso
          have hpos := pending_pos s i .appended hg rfl
          have := (hsum hsd).1
          omega
  | summarize =>
      by_cases hg : s.wgCount = 0 ∧ s.summaryDone = false
      case neg =>
        simp only [corrStep, if_neg hg] at hstep
        exact Option.noConfusion hstep
      case pos =>
        simp only [corrStep, if_pos hg] at hstep
        injection hstep with hs2
        subst hs2
        refine ⟨hlen, hhold, hwg, hres, ?_⟩
        intro _
        obtain ⟨hg1, hg2⟩ := hg
        constructor
        · show s.phases.countP TaskPhase.pending = 0
          omega
        · rfl

/-- The invariant holds right after the spawning loop. -/
lemma corrInv_init (decoder : String → Except String TradeAnalysisResponse)
    (events : List (EarningsResult × LookupOutcome)) :
    CorrInv decoder events (initCorrState events) := by
  have hnot : ∀ p ∈ events.map (fun _ => TaskPhase.notStarted), p = TaskPhase.notStarted := by
    intro p hp
    obtain ⟨e, _, rfl⟩ := List.mem_map.mp hp
    rfl
  refine ⟨by simp [initCorrState], ?_, ?_, ?_, ?_⟩
  · show (events.map (fun _ => TaskPhase.notStarted)).countP TaskPhase.inFlight ≤ 5
    rw [List.countP_eq_zero.mpr (fun a ha => by rw [hnot a ha]; simp [TaskPhase.inFlight])]
    omega
  · show events.length
        = (events.map (fun _ => TaskPhase.notStarted)).countP TaskPhase.pending
    rw [List.countP_eq_length.mpr (fun a ha => by rw [hnot a ha]; rfl)]
    simp
  · show List.Perm [] (selResults decoder (events.map (fun _ => TaskPhase.notStarted)) events)
    have : ∀ (evs : List (EarningsResult × LookupOutcome)),
        selResults decoder (evs.map (fun _ => TaskPhase.notStarted)) evs = [] := by
      intro evs
      induction evs with
      | nil => rfl
      | cons e et ihe =>
          show selResults decoder
            (TaskPhase.notStarted :: et.map (fun _ => TaskPhase.notStarted)) (e :: et) = []
          simp only [selResults,
            show TaskPhase.hasAppended TaskPhase.notStarted = false from rfl,
            Bool.false_eq_true, if_false]
          exact ihe
    rw [this events]
  · intro hsd
    simp [initCorrState] at hsd

/-- Running any schedule from an invariant state lands in an invariant
state. -/
lemma corrRun_inv (decoder : String → Except String TradeAnalysisResponse)
    (events : List (EarningsResult × LookupOutcome)) :
    ∀ (tr : List CorrAction) (s s2 : CorrState),
      CorrInv decoder events s → corrRun decoder events s tr = some s2 →
      CorrInv decoder events s2 := by
  intro tr
  induction tr with
  | nil =>
      intro s s2 hinv h
      simp only [corrRun] at h
      injection h with h
      subst h
      exact hinv
  | cons a rest ih =>
      intro s s2 hinv h
      simp only [corrRun] at h
      cases hstep : corrStep decoder events s a with
      | none => rw [hstep] at h; exact absurd h (by simp)
      | some s1 =>
          rw [hstep] at h
          exact ih s1 s2 (corrStep_inv decoder events s s1 a hinv hstep) h

/-- After the summary, every task is done. -/
lemma pending_zero_all_done (phases : List TaskPhase)
    (h : phases.countP TaskPhase.pending = 0) :
    ∀ p ∈ phases, p = TaskPhase.done := by
  intro p hp
  have := List.countP_eq_zero.mp h p hp
  cases p <;> simp [TaskPhase.pending] at this ⊢

/-- C3: for every batch of events and every legal schedule of the fan-out, at
most 5 lookups are in flight at any reachable state; and in any state where
the summary has been taken, every task is done, the result list has exactly
one entry per input event (none lost, none duplicated — it is a permutation
of the per-event analyses), and the summary is computed from those results. -/
theorem bounded_correlator_spec (decoder : String → Except String TradeAnalysisResponse)
    (events : List (EarningsResult × LookupOutcome)) (tr : List CorrAction) (s : CorrState)
    (hrun : corrRun decoder events (initCorrState events) tr = some s) :
    holders s ≤ 5 ∧
    (s.summaryDone = true →
      s.results.length = events.length ∧
      s.results.Perm (events.map (fun e => analyzeTickerBigMoney decoder e.1 e.2)) ∧
      (∀ p ∈ s.phases, p = TaskPhase.done) ∧
      s.summary = computeSummary s.results) := by
  obtain ⟨hlen, hhold, hwg, hres, hsum⟩ :=
    corrRun_inv decoder events tr (initCorrState events) s (corrInv_init decoder events) hrun
  refine ⟨hhold, fun hsd => ?_⟩
  obtain ⟨hpend, hsummary⟩ := hsum hsd
  have hdone := pending_zero_all_done s.phases hpend
  have hall : s.results.Perm (events.map (fun e => analyzeTickerBigMoney decoder e.1 e.2)) := by
    rw [← selResults_all_done decoder s.phases events hdone hlen]
    exact hres
  exact ⟨by rw [hall.length_eq, List.length_map], hall, hdone, hsummary⟩

def c3Decoder : String → Except String TradeAnalysisResponse := fun _ => .error "bad json"

def c3Events : List (EarningsResult × LookupOutcome) :=
  [(⟨"AAPL", "2025-01-02", none, none, none, none, 0, "", ""⟩, .transportError "refused"),
   (⟨"TSLA", "2025-01-02", none, none, none, none, 0, "", ""⟩, .response 200 (.ok "body"))]

def c3Trace : List CorrAction :=
  [.acquire 0, .acquire 1, .append 1, .release 1, .append 0, .release 0, .summarize]

def c3Final : CorrState :=
  (corrRun c3Decoder c3Events (initCorrState c3Events) c3Trace).getD (initCorrState c3Events)

/-- Witness for C3 on a two-event batch under an out-of-order schedule. -/
theorem bounded_correlator_spec_witness :
    holders c3Final ≤ 5 ∧
    c3Final.results.length = c3Events.length ∧
    c3Final.results.Perm (c3Events.map (fun e => analyzeTickerBigMoney c3Decoder e.1 e.2)) ∧
    c3Final.summary = computeSummary c3Final.results := by
  have h := bounded_correlator_spec c3Decoder c3Events c3Trace c3Final (by decide)
  have h2 := h.2 (by decide)
  exact ⟨h.1, h2.1, h2.2.1, h2.2.2.2⟩

/-- C7: every per-item failure degrades to a structured record instead of an
exception — transport failure, non-200 status, body-read failure and decode
failure each yield direction ERROR with an attached message, a successful
lookup reporting zero total trades yields NO_DATA — and no per-item failure
costs the batch anything: in every completed run each event (failing or not)
contributes exactly one result record. -/
theorem per_item_failure_degrades (decoder : String → Except String TradeAnalysisResponse)
    (earning : EarningsResult) :
    (∀ msg,
      (analyzeTickerBigMoney decoder earning (.transportError msg)).BigMoneyDirection = "ERROR" ∧
      (analyzeTickerBigMoney decoder earning (.transportError msg)).Error ≠ none) ∧
    (∀ statusCode bodyRead, statusCode ≠ 200 →
      (analyzeTickerBigMoney decoder earning
        (.response statusCode bodyRead)).BigMoneyDirection = "ERROR" ∧
      (analyzeTickerBigMoney decoder earning (.response statusCode bodyRead)).Error ≠ none) ∧
    (∀ msg,
      (analyzeTickerBigMoney decoder earning
        (.response 200 (.error msg))).BigMoneyDirection = "ERROR" ∧
      (analyzeTickerBigMoney decoder earning (.response 200 (.error msg))).Error ≠ none) ∧
    (∀ body msg, decoder body = .error msg →
      (analyzeTickerBigMoney decoder earning
        (.response 200 (.ok body))).BigMoneyDirection = "ERROR" ∧
      (analyzeTickerBigMoney decoder earning (.response 200 (.ok body))).Error ≠ none) ∧
    (∀ body ta, decoder body = .ok ta → ta.Result.TotalTrades = 0 →
      (analyzeTickerBigMoney decoder earning
        (.response 200 (.ok body))).BigMoneyDirection = "NO_DATA") ∧
    (∀ (events : List (EarningsResult × LookupOutcome)) (tr : List CorrAction) (s : CorrState),
      corrRun decoder events (initCorrState events) tr = some s → s.summaryDone = true →
      ∀ r, s.results.count r
        = (events.map (fun e => analyzeTickerBigMoney decoder e.1 e.2)).count r) := by
  refine ⟨?_, ?_, ?_, ?_, ?_, ?_⟩
  · intro msg
    exact ⟨rfl, by simp [analyzeTickerBigMoney]⟩
  · intro statusCode bodyRead hcode
    constructor
    · simp [analyzeTickerBigMoney, hcode]
    · simp [analyzeTickerBigMoney, hcode]
  · intro msg
    exact ⟨rfl, by simp [analyzeTickerBigMoney]⟩
  · intro body msg hdec
    constructor
    · simp [analyzeTickerBigMoney, hdec]
    · simp [analyzeTickerBigMoney, hdec]
  · intro body ta hdec htrades
    simp [analyzeTickerBigMoney, hdec, htrades]
  · intro events tr s hrun hsd r
    obtain ⟨hlen, _, _, hres, hsum⟩ :=
      corrRun_inv decoder events tr (initCorrState events) s (corrInv_init decoder events) hrun
    obtain ⟨hpend, _⟩ := hsum hsd
    have hall : s.results.Perm (events.map (fun e => analyzeTickerBigMoney decoder e.1 e.2)) := by
      rw [← selResults_all_done decoder s.phases events (pending_zero_all_done s.phases hpend)
        hlen]
      exact hres
    exact hall.count_eq r

def c7Earning : EarningsResult := ⟨"NVDA", "2025-01-02", none, none, none, none, 0, "", ""⟩

def c7TA : TradeAnalysisResponse := ⟨"NVDA", "2025-01-01", 10, ⟨0, 0, 0, 0, 0, 0, "NEUTRAL"⟩⟩

def c7Decoder : String → Except String TradeAnalysisResponse := fun _ => .ok c7TA

/-- Witness for C7: a transport failure, a 503 status and a zero-trades
success each produce the prescribed record. -/
theorem per_item_failure_degrades_witness :
    ((analyzeTickerBigMoney c7Decoder c7Earning
        (.transportError "refused")).BigMoneyDirection = "ERROR" ∧
      (analyzeTickerBigMoney c7Decoder c7Earning (.transportError "refused")).Error ≠ none) ∧
    ((analyzeTickerBigMoney c7Decoder c7Earning
        (.response 503 (.ok "oops"))).BigMoneyDirection = "ERROR" ∧
      (analyzeTickerBigMoney c7Decoder c7Earning (.response 503 (.ok "oops"))).Error ≠ none) ∧
    (analyzeTickerBigMoney c7Decoder c7Earning
        (.response 200 (.ok "zero"))).BigMoneyDirection = "NO_DATA" := by
  have h := per_item_failure_degrades c7Decoder c7Earning
  exact ⟨h.1 "refused", h.2.1 503 (.ok "oops") (by decide), h.2.2.2.2.1 "zero" c7TA rfl rfl⟩

end InstitutionAnalyser
